import Mathlib

/-!
# PortfoRadar — verification of the ingestion core

A shallow embedding of the PortfoRadar ingestion pipeline
(`src/ingestion/mappers/company.mapper.ts`, `src/ingestion/kkr-client/kkr.client.ts`,
`src/companies/companies.repository.ts`, `src/ingestion/ingestion-run.repository.ts`)
together with proofs about the identity/fingerprint functions, the page fetcher's
retry classification, the accumulation loop, the upsert store and the run tracker.

JavaScript strings are modelled as `List Char`; the SHA-256-hex-truncate-32 pipeline
(`createHash('sha256').update(s).digest('hex').substring(0, 32)`) is abstracted as an
explicit `hash : Str → Str` parameter, since a cryptographic hash has no faithful
shallow embedding; theorems that need collision-freedom take injectivity of `hash`
as a hypothesis and all other theorems hold for every `hash`.
-/

namespace PortfoRadar

/-- JavaScript strings, modelled as lists of characters. -/
abbrev Str := List Char

/-- Shorthand: the character list of a Lean string literal. -/
def lit (s : String) : Str := s.data

/-- The whitespace class used by JavaScript `String.prototype.trim` and `\s`
(ASCII whitespace, NBSP and the BOM; the main members of the WhiteSpace /
LineTerminator productions). -/
def jsIsWs (c : Char) : Bool :=
  c = ' ' || c = '\t' || c = '\n' || c = '\x0b' || c = '\x0c' || c = '\r' ||
    c = '\u00a0' || c = '\ufeff'

/-- `String.prototype.toLowerCase`, modelled with Lean's character-wise
case mapping. -/
def jsToLower (s : Str) : Str := s.map Char.toLower

/-- `String.prototype.trim`: strip whitespace from both ends. -/
def jsTrim (s : Str) : Str :=
  ((s.dropWhile jsIsWs).reverse.dropWhile jsIsWs).reverse

/-- A raw company record as received from the upstream source
(`KkrRawCompany` in `kkr-api.types.ts`): ten required string fields and four
optional related-link fields. -/
structure KkrRawCompany where
  name : Str
  sortingName : Str
  logo : Str
  hq : Str
  region : Str
  assetClass : Str
  industry : Str
  yoi : Str
  url : Str
  description : Str
  relatedLinkOne : Option Str
  relatedLinkOneTitle : Option Str
  relatedLinkTwo : Option Str
  relatedLinkTwoTitle : Option Str
deriving DecidableEq

/-- JavaScript `x || ''` on an optional string (`undefined` and `''` are both
falsy and both yield `''`). -/
def jsOrEmpty (o : Option Str) : Str :=
  match o with
  | none => []
  | some s => s

/-- JavaScript `x || ''` on a (definitely present) string: `''` is falsy and
yields `''`, every other string is returned unchanged. -/
def jsOrEmptyS (s : Str) : Str :=
  if s.isEmpty then [] else s

/-- The composite key hashed by `generateCompanyId`:
`[name.toLowerCase().trim(), (hq ?? '').toLowerCase().trim()].join('|')`. -/
def companyIdKey (raw : KkrRawCompany) : Str :=
  jsTrim (jsToLower raw.name) ++ '|' :: jsTrim (jsToLower raw.hq)

/-- `generateCompanyId` (company.mapper.ts): hash of the lowercased, trimmed
`name|hq` composite key.  `hash` stands for SHA-256 → hex → first 32 chars. -/
def generateCompanyId (hash : Str → Str) (raw : KkrRawCompany) : Str :=
  hash (companyIdKey raw)

section JsonSerialization

/-- Lowercase hexadecimal digit, as used by `JSON.stringify` for control
character escapes. -/
def hexDigitChar (n : Nat) : Char :=
  if n < 10 then Char.ofNat (48 + n) else Char.ofNat (87 + n)

/-- The escape `JSON.stringify` applies to one character of a string value. -/
def jsonEscapeChar (c : Char) : Str :=
  if c = '"' then ['\\', '"']
  else if c = '\\' then ['\\', '\\']
  else if c = '\x08' then ['\\', 'b']
  else if c = '\x0c' then ['\\', 'f']
  else if c = '\n' then ['\\', 'n']
  else if c = '\r' then ['\\', 'r']
  else if c = '\t' then ['\\', 't']
  else if c.toNat < 32 then
    ['\\', 'u', '0', '0', hexDigitChar (c.toNat / 16), hexDigitChar (c.toNat % 16)]
  else [c]

/-- Escape a whole string value for `JSON.stringify`. -/
def jsonEscape : Str → Str
  | [] => []
  | c :: rest => jsonEscapeChar c ++ jsonEscape rest

/-- A string value as serialized by `JSON.stringify`: quoted and escaped. -/
def jsonStr (s : Str) : Str := '"' :: (jsonEscape s ++ ['"'])

/-- The thirteen business fields whose serialization `generateContentHash`
hashes, with the `|| ''` defaults of the source applied.  (Fetch timestamps,
`createdAt`/`updatedAt` and the volatile `sortingName` are not among them.) -/
structure BusinessFields where
  name : Str
  assetClass : Str
  industry : Str
  region : Str
  description : Str
  url : Str
  hq : Str
  yoi : Str
  logo : Str
  relatedLinkOne : Str
  relatedLinkOneTitle : Str
  relatedLinkTwo : Str
  relatedLinkTwoTitle : Str
deriving DecidableEq

/-- The business fields of a raw record, exactly as `generateContentHash`
reads them (`raw.description || ''` etc.). -/
def businessFields (raw : KkrRawCompany) : BusinessFields where
  name := raw.name
  assetClass := raw.assetClass
  industry := raw.industry
  region := raw.region
  description := jsOrEmptyS raw.description
  url := jsOrEmptyS raw.url
  hq := jsOrEmptyS raw.hq
  yoi := jsOrEmptyS raw.yoi
  logo := jsOrEmptyS raw.logo
  relatedLinkOne := jsOrEmpty raw.relatedLinkOne
  relatedLinkOneTitle := jsOrEmpty raw.relatedLinkOneTitle
  relatedLinkTwo := jsOrEmpty raw.relatedLinkTwo
  relatedLinkTwoTitle := jsOrEmpty raw.relatedLinkTwoTitle

/-- `JSON.stringify` of the object literal built by `generateContentHash`:
fixed key skeleton in source order, string values escaped. -/
def encodeBusinessFields (b : BusinessFields) : Str :=
  lit "\x7b\"name\":" ++ jsonStr b.name ++
  lit ",\"assetClass\":" ++ jsonStr b.assetClass ++
  lit ",\"industry\":" ++ jsonStr b.industry ++
  lit ",\"region\":" ++ jsonStr b.region ++
  lit ",\"description\":" ++ jsonStr b.description ++
  lit ",\"url\":" ++ jsonStr b.url ++
  lit ",\"hq\":" ++ jsonStr b.hq ++
  lit ",\"yoi\":" ++ jsonStr b.yoi ++
  lit ",\"logo\":" ++ jsonStr b.logo ++
  lit ",\"relatedLinkOne\":" ++ jsonStr b.relatedLinkOne ++
  lit ",\"relatedLinkOneTitle\":" ++ jsonStr b.relatedLinkOneTitle ++
  lit ",\"relatedLinkTwo\":" ++ jsonStr b.relatedLinkTwo ++
  lit ",\"relatedLinkTwoTitle\":" ++ jsonStr b.relatedLinkTwoTitle ++
  lit "\x7d"

/-- The exact string `generateContentHash` feeds into the hash. -/
def contentString (raw : KkrRawCompany) : Str :=
  encodeBusinessFields (businessFields raw)

/-- `generateContentHash` (company.mapper.ts): hash of the canonical JSON
serialization of the thirteen business fields. -/
def generateContentHash (hash : Str → Str) (raw : KkrRawCompany) : Str :=
  hash (contentString raw)

/-- Value of a lowercase hexadecimal digit (left inverse of `hexDigitChar`
on digits produced by it). -/
def hexVal (c : Char) : Nat :=
  if c.toNat ≤ 57 then c.toNat - 48 else c.toNat - 87

/-- Undo a two-character escape (`\"`, `\\`, `\b`, `\f`, `\n`, `\r`, `\t`). -/
def jsonUnescapeChar (e : Char) : Char :=
  if e = 'b' then '\x08'
  else if e = 'f' then '\x0c'
  else if e = 'n' then '\n'
  else if e = 'r' then '\r'
  else if e = 't' then '\t'
  else e

/-- Greedy decoder for an escaped JSON string value: consumes characters up
to the closing unescaped quote and returns the decoded value together with
the rest of the input. -/
def jsonUnescape : Str → Option (Str × Str)
  | [] => none
  | c :: rest =>
    if c = '"' then some ([], rest)
    else if c = '\\' then
      match rest with
      | [] => none
      | e :: rest2 =>
        if e = 'u' then
          match rest2 with
          | a :: b :: c2 :: d :: rest3 =>
            (jsonUnescape rest3).map fun p =>
              (Char.ofNat (((hexVal a * 16 + hexVal b) * 16 + hexVal c2) * 16 + hexVal d) :: p.1, p.2)
          | _ => none
        else
          (jsonUnescape rest2).map fun p => (jsonUnescapeChar e :: p.1, p.2)
    else
      (jsonUnescape rest).map fun p => (c :: p.1, p.2)

/-- Consume an exact literal from the front of the input. -/
def stripLit : Str → Str → Option Str
  | [], input => some input
  | _ :: _, [] => none
  | c :: ls, d :: input => if c = d then stripLit ls input else none

/-- Strip one fixed `"key":` literal and decode the following string value. -/
def decodeField (key : String) (s : Str) : Option (Str × Str) :=
  match stripLit (lit key) s with
  | none => none
  | some s1 => jsonUnescape s1.tail

/-- Decoder for `encodeBusinessFields`: strips each fixed key, decodes each
string value, and checks the closing brace. -/
def decodeBusinessFields (s : Str) : Option BusinessFields :=
  match decodeField "\x7b\"name\":" s with
  | none => none
  | some (name, s) =>
  match decodeField ",\"assetClass\":" s with
  | none => none
  | some (assetClass, s) =>
  match decodeField ",\"industry\":" s with
  | none => none
  | some (industry, s) =>
  match decodeField ",\"region\":" s with
  | none => none
  | some (region, s) =>
  match decodeField ",\"description\":" s with
  | none => none
  | some (description, s) =>
  match decodeField ",\"url\":" s with
  | none => none
  | some (url, s) =>
  match decodeField ",\"hq\":" s with
  | none => none
  | some (hq, s) =>
  match decodeField ",\"yoi\":" s with
  | none => none
  | some (yoi, s) =>
  match decodeField ",\"logo\":" s with
  | none => none
  | some (logo, s) =>
  match decodeField ",\"relatedLinkOne\":" s with
  | none => none
  | some (relatedLinkOne, s) =>
  match decodeField ",\"relatedLinkOneTitle\":" s with
  | none => none
  | some (relatedLinkOneTitle, s) =>
  match decodeField ",\"relatedLinkTwo\":" s with
  | none => none
  | some (relatedLinkTwo, s) =>
  match decodeField ",\"relatedLinkTwoTitle\":" s with
  | none => none
  | some (relatedLinkTwoTitle, s) =>
  if s = lit "\x7d" then
    some ⟨name, assetClass, industry, region, description, url, hq, yoi, logo,
      relatedLinkOne, relatedLinkOneTitle, relatedLinkTwo, relatedLinkTwoTitle⟩
  else none

end JsonSerialization

section CaseAndWhitespace

/-- All characters of `w` are JavaScript whitespace. -/
def AllWs (w : Str) : Prop := ∀ c ∈ w, jsIsWs c = true

/-- `t` differs from `s` only in letter case and surrounding whitespace. -/
def CaseWsVariant (s t : Str) : Prop :=
  ∃ w1 w2 w3 w4 u v, AllWs w1 ∧ AllWs w2 ∧ AllWs w3 ∧ AllWs w4 ∧
    jsToLower u = jsToLower v ∧ s = w1 ++ u ++ w2 ∧ t = w3 ++ v ++ w4

end CaseAndWhitespace

section Normalizer

/-- One global pass of JavaScript `String.prototype.replace` with a plain
(non-empty) string pattern: leftmost, non-overlapping, no rescanning of the
replacement text. -/
def replaceAll (pat rep : Str) : Str → Str
  | [] => []
  | c :: rest =>
    if _h : pat.isEmpty then c :: rest
    else if pat.isPrefixOf (c :: rest) then
      rep ++ replaceAll pat rep ((c :: rest).drop pat.length)
    else c :: replaceAll pat rep rest
termination_by s => s.length
decreasing_by
  · simp only [List.length_drop, List.length_cons]
    have : 1 ≤ pat.length := by
      cases pat with
      | nil => simp [List.isEmpty] at _h
      | cons p ps => simp
    omega
  · simp

/-- The regex `/<[^>]*>/g` of `stripHtml`: drop every maximal `<...>` span
(a `<` with no later `>` matches nothing). -/
def removeTags : Str → Str
  | [] => []
  | c :: rest =>
    if c = '<' then
      match _h : rest.dropWhile (fun d => !(d = '>')) with
      | [] => c :: rest
      | _ :: after => removeTags after
    else c :: removeTags rest
termination_by s => s.length
decreasing_by
  · have hle := ((List.dropWhile_sublist (fun d => !(d = '>'))).length_le : (rest.dropWhile _).length ≤ rest.length)
    rw [_h] at hle
    simp only [List.length_cons] at hle ⊢
    omega
  · simp

/-- The regex `/\s+/g → ' '` of `stripHtml`: collapse each whitespace run to
one space. -/
def collapseWs : Str → Str
  | [] => []
  | c :: rest =>
    if jsIsWs c then ' ' :: collapseWs (rest.dropWhile jsIsWs)
    else c :: collapseWs rest
termination_by s => s.length
decreasing_by
  · have hle := ((List.dropWhile_sublist jsIsWs).length_le : (rest.dropWhile _).length ≤ rest.length)
    simp only [List.length_cons]
    omega
  · simp

/-- `stripHtml` (company.mapper.ts): remove tags, decode the five entities,
collapse whitespace, trim; `undefined`/`''` input yields `undefined`. -/
def stripHtml (html : Option Str) : Option Str :=
  match html with
  | none => none
  | some h =>
    if h.isEmpty then none
    else some (jsTrim (collapseWs
      (replaceAll (lit "&quot;") (lit "\"")
        (replaceAll (lit "&gt;") (lit ">")
          (replaceAll (lit "&lt;") (lit "<")
            (replaceAll (lit "&amp;") (lit "&")
              (replaceAll (lit "&nbsp;") (lit " ")
                (removeTags h))))))))

/-- `normalizeUrl` (company.mapper.ts): `undefined`/blank yields `undefined`;
otherwise trim and prepend `https://` when no scheme is present. -/
def normalizeUrl (url : Option Str) : Option Str :=
  match url with
  | none => none
  | some u =>
    if u.isEmpty then none
    else if (jsTrim u).isEmpty then none
    else
      if (lit "http://").isPrefixOf (jsTrim u) || (lit "https://").isPrefixOf (jsTrim u) then
        some (jsTrim u)
      else some (lit "https://" ++ jsTrim u)

/-- `buildLogoUrl` (company.mapper.ts): resolve a relative asset path against
the fixed base URL. -/
def buildLogoUrl (logoPath : Option Str) : Option Str :=
  match logoPath with
  | none => none
  | some p =>
    if p.isEmpty then none
    else if (jsTrim p).isEmpty then none
    else some (lit "https://www.kkr.com" ++ p)

/-- `splitAssetClasses` (company.mapper.ts): split on commas, trim, drop
empties, preserve order. -/
def splitAssetClasses (assetClassRaw : Str) : List Str :=
  if assetClassRaw.isEmpty then []
  else ((assetClassRaw.splitOn ',').map jsTrim).filter fun s => 0 < s.length

/-- One related-link slot (`{url, title}`), both parts optional and stored
untyped. -/
structure RelatedLink where
  url : Option Str
  title : Option Str
deriving DecidableEq

/-- The pair of related-link slots built by `mapRawToCompanyDto`. -/
structure RelatedLinks where
  linkOne : Option RelatedLink
  linkTwo : Option RelatedLink
deriving DecidableEq

/-- Provenance metadata (`source` subdocument); the fetch timestamp is an
abstract instant (`new Date()` is passed in by the caller). -/
structure SourceMeta where
  listUrl : Str
  endpoint : Str
  fetchedAt : Nat
deriving DecidableEq

/-- The object `mapRawToCompanyDto` actually returns (the `UpsertCompanyDto`
of companies.repository.ts, plus the `contentHash` field the mapper emits). -/
structure UpsertCompanyDto where
  companyId : Str
  contentHash : Str
  name : Str
  nameSort : Str
  assetClassRaw : Str
  assetClasses : List Str
  industry : Str
  region : Str
  descriptionHtml : Option Str
  descriptionText : Option Str
  website : Option Str
  headquarters : Option Str
  yearOfInvestment : Option Str
  logoPath : Option Str
  logoUrl : Option Str
  relatedLinks : Option RelatedLinks
  source : SourceMeta
deriving DecidableEq

/-- JavaScript truthiness of an optional string (`undefined` and `''` are
falsy). -/
def jsTruthy (o : Option Str) : Bool :=
  match o with
  | none => false
  | some s => !s.isEmpty

/-- JavaScript `x || undefined` on a string. -/
def jsOrUndef (s : Str) : Option Str :=
  if s.isEmpty then none else some s

/-- `mapRawToCompanyDto` (company.mapper.ts): derive the identity key and
content hash, normalize the scalar and array fields, and attach provenance.
The fetch timestamp (`new Date()`) is `fetchedAt`, passed by the caller. -/
def mapRawToCompanyDto (hash : Str → Str) (raw : KkrRawCompany)
    (sourceEndpoint listUrl : Str) (fetchedAt : Nat) : UpsertCompanyDto :=
  let companyId := generateCompanyId hash raw
  let contentHash := generateContentHash hash raw
  let relatedLinks : Option RelatedLinks :=
    if jsTruthy raw.relatedLinkOne || jsTruthy raw.relatedLinkTwo then
      some
        { linkOne :=
            if jsTruthy raw.relatedLinkOne || jsTruthy raw.relatedLinkOneTitle then
              some { url := raw.relatedLinkOne, title := raw.relatedLinkOneTitle }
            else none
          linkTwo :=
            if jsTruthy raw.relatedLinkTwo || jsTruthy raw.relatedLinkTwoTitle then
              some { url := raw.relatedLinkTwo, title := raw.relatedLinkTwoTitle }
            else none }
    else none
  { companyId := companyId
    contentHash := contentHash
    name := raw.name
    nameSort := jsToLower raw.name
    assetClassRaw := raw.assetClass
    assetClasses := splitAssetClasses raw.assetClass
    industry := raw.industry
    region := raw.region
    descriptionHtml := jsOrUndef raw.description
    descriptionText := stripHtml (some raw.description)
    website := normalizeUrl (some raw.url)
    headquarters := jsOrUndef raw.hq
    yearOfInvestment := jsOrUndef raw.yoi
    logoPath := jsOrUndef raw.logo
    logoUrl := buildLogoUrl (some raw.logo)
    relatedLinks := relatedLinks
    source := { listUrl := listUrl, endpoint := sourceEndpoint, fetchedAt := fetchedAt } }

end Normalizer

section KkrClient

/-- A JavaScript `Error` as the client throws it: the `.name` and `.message`
properties, plus whether the object is an instance of p-retry's `AbortError`
class (what `error instanceof AbortError` tests).  The client only ever
throws plain `Error`s — for a 429 it reassigns `.name` to `'AbortError'` but
never constructs p-retry's class — so `isAbortInstance` is `false` for every
error this code produces. -/
structure JsError where
  name : Str
  message : Str
  isAbortInstance : Bool
deriving DecidableEq

/-- A parsed response body (`KkrApiResponse`); `results` is `none` when the
field is missing or not an array. -/
structure ApiBody where
  success : Bool
  message : Str
  hits : Nat
  pages : Nat
  results : Option (List KkrRawCompany)
deriving DecidableEq

/-- One HTTP exchange as the client observes it: a status code and a body
(`none` when the body fails to parse as JSON). -/
structure HttpResponse where
  statusCode : Nat
  body : Option ApiBody
deriving DecidableEq

/-- Decimal digits of a natural number (for the interpolated error
messages). -/
def natToStr (n : Nat) : Str := (Nat.repr n).data

/-- Pagination metadata extracted from a page response
(`KkrPaginationMeta`). -/
structure KkrPaginationMeta where
  totalHits : Nat
  totalPages : Nat
  currentPage : Nat
  resultsOnPage : Nat
deriving DecidableEq

/-- Result of fetching a single page (`PageFetchResult`). -/
structure PageFetchResult where
  companies : List KkrRawCompany
  pagination : KkrPaginationMeta
deriving DecidableEq

/-- The body of `fetchWithRetry` inside `fetchPage`: classify one HTTP
exchange.  For a 429 the code throws `new Error(...)` with `.name` reassigned
to `'AbortError'` (still a plain `Error`, not an `AbortError` instance); any
other non-200 status, an unparseable body, or a missing `results` array
throws a plain error. -/
def fetchAttempt (pageNumber : Nat) (resp : HttpResponse) :
    Except JsError ApiBody :=
  if resp.statusCode = 429 then
    .error ⟨lit "AbortError", lit "Rate limited (429) — backing off", false⟩
  else if resp.statusCode ≠ 200 then
    .error ⟨lit "Error", lit "HTTP " ++ natToStr resp.statusCode ++
      lit " fetching page " ++ natToStr pageNumber, false⟩
  else
    match resp.body with
    | none => .error ⟨lit "SyntaxError", lit "Unexpected token", false⟩
    | some api =>
      match api.results with
      | none => .error ⟨lit "Error", lit "Page " ++ natToStr pageNumber ++
          lit " returned invalid results", false⟩
      | some _ => .ok api

/-- `maxRetries` of `DEFAULT_CONFIG`: 3 retries, so at most 4 attempts. -/
def maxRetries : Nat := 3

/-- `p-retry`: run the operation, then retry on failure with `fuel` retries
remaining.  The library stops retrying only for an error that is an
*instance* of its `AbortError` class (`error instanceof AbortError`); an
error whose `.name` property merely equals `'AbortError'` is retried like
any other.  `attemptNumber` is 1-based as in the library. -/
def pRetryRun (op : Nat → Except JsError α) : Nat → Nat → Except JsError α
  | fuel, attemptNumber =>
    match op attemptNumber with
    | .ok v => .ok v
    | .error e =>
      if e.isAbortInstance = true then .error e
      else
        match fuel with
        | 0 => .error e
        | f + 1 => pRetryRun op f (attemptNumber + 1)

/-- The `p-retry` backoff schedule configured in `fetchPage`
(`minTimeout` 1000 ms, `maxTimeout` 8000 ms, default factor 2). -/
def retryDelayMs (attemptNumber : Nat) : Nat :=
  min (1000 * 2 ^ (attemptNumber - 1)) 8000

/-- `fetchPage` (kkr.client.ts): wrap the classified exchange in the bounded
retry policy, then reject a `success=false` body.  `responses` gives the HTTP
exchange observed on each (1-based) attempt. -/
def fetchPage (pageNumber : Nat) (responses : Nat → HttpResponse) :
    Except JsError PageFetchResult :=
  match pRetryRun (fun a => fetchAttempt pageNumber (responses a)) maxRetries 1 with
  | .error e => .error e
  | .ok api =>
    if api.success then
      .ok { companies := api.results.getD []
            pagination :=
              { totalHits := api.hits
                totalPages := api.pages
                currentPage := pageNumber
                resultsOnPage := (api.results.getD []).length } }
    else
      .error ⟨lit "Error", lit "API returned success=false: " ++ api.message, false⟩

/-- The accumulator of `fetchAllPages`: a JavaScript `Map` in insertion
order, keyed by `company.name.toLowerCase().trim()`. -/
abbrev AccMap := List (Str × KkrRawCompany)

/-- The accumulator key of a record: the normalized company name
(note: the name only, not the `name|hq` identity key). -/
def accKey (c : KkrRawCompany) : Str := jsTrim (jsToLower c.name)

/-- First-match lookup in the accumulator. -/
def accFind (k : Str) : AccMap → Option KkrRawCompany
  | [] => none
  | (k', v) :: rest => if k' = k then some v else accFind k rest

/-- `if (!accumulated.has(key)) accumulated.set(key, company)`: insert only
when the key is absent; a `Map.set` of a fresh key appends. -/
def accAdd (acc : AccMap) (c : KkrRawCompany) : AccMap :=
  if (accFind (accKey c) acc).isSome then acc else acc ++ [(accKey c, c)]

/-- Merge one page of companies into the accumulator, first occurrence
winning. -/
def mergePage (acc : AccMap) (companies : List KkrRawCompany) : AccMap :=
  companies.foldl accAdd acc

/-- `maxAccumulationAttempts` of `DEFAULT_CONFIG`. -/
def maxAccumulationAttempts : Nat := 5

/-- One accumulation pass (the body of the `while` loop of `fetchAllPages`):
fetch page 1 (an exception here propagates), merge it, then fetch pages
`2..totalPages` sequentially, merging each and skipping pages whose fetch
throws.  `fetch a p` is the outcome of `fetchPage(p)` during attempt `a`. -/
def onePass (fetch : Nat → Nat → Except JsError PageFetchResult)
    (attempt : Nat) (acc : AccMap) : Except JsError (AccMap × Nat × Nat) :=
  match fetch attempt 1 with
  | .error e => .error e
  | .ok first =>
    let totalHits := first.pagination.totalHits
    let totalPages := first.pagination.totalPages
    let acc1 := mergePage acc first.companies
    let acc2 := (List.range' 2 (totalPages - 1)).foldl
      (fun a pageNum =>
        match fetch attempt pageNum with
        | .error _ => a
        | .ok r => mergePage a r.companies)
      acc1
    .ok (acc2, totalHits, totalPages)

/-- The final state of the accumulation loop. -/
structure AccLoopOut where
  acc : AccMap
  totalHits : Nat
  totalPages : Nat
  attempts : Nat
deriving DecidableEq

/-- The accumulation `while` loop of `fetchAllPages`: run passes until the
accumulated size reaches the reported total or the attempt budget is
exhausted, reusing (never resetting) the accumulator. -/
def accLoop (fetch : Nat → Nat → Except JsError PageFetchResult) :
    Nat → Nat → AccMap → Nat → Nat → Except JsError AccLoopOut
  | 0, attempt, acc, totalHits, totalPages =>
    .ok ⟨acc, totalHits, totalPages, attempt⟩
  | fuel + 1, attempt, acc, _, _ =>
    match onePass fetch (attempt + 1) acc with
    | .error e => .error e
    | .ok (acc', totalHits, totalPages) =>
      if totalHits ≤ acc'.length then .ok ⟨acc', totalHits, totalPages, attempt + 1⟩
      else accLoop fetch fuel (attempt + 1) acc' totalHits totalPages

/-- Result of `fetchAllPages` (`AllPagesFetchResult`). -/
structure AllPagesFetchResult where
  companies : List KkrRawCompany
  totalHits : Nat
  totalPages : Nat
  fetchedPages : Nat
  accumulationAttempts : Nat
deriving DecidableEq

/-- `fetchAllPages` (kkr.client.ts): run the accumulation loop from an empty
accumulator and return the accumulated unique companies in insertion order. -/
def fetchAllPages (fetch : Nat → Nat → Except JsError PageFetchResult) :
    Except JsError AllPagesFetchResult :=
  match accLoop fetch maxAccumulationAttempts 0 [] 0 0 with
  | .error e => .error e
  | .ok out =>
    .ok { companies := out.acc.map Prod.snd
          totalHits := out.totalHits
          totalPages := out.totalPages
          fetchedPages := out.totalPages
          accumulationAttempts := out.attempts }

end KkrClient

section UpsertStore

/-- Result of an upsert (`UpsertResult` of companies.repository.ts). -/
structure UpsertResult where
  companyId : Str
  created : Bool
  updated : Bool
deriving DecidableEq

/-- The companies collection, keyed by `companyId` (unique index). -/
abbrev Store := List (Str × UpsertCompanyDto)

/-- `findOne({companyId})`. -/
def storeFind (k : Str) : Store → Option UpsertCompanyDto
  | [] => none
  | (k', v) :: rest => if k' = k then some v else storeFind k rest

/-- `updateOne({companyId}, dto)`: replace the stored fields of the matching
document. -/
def storeUpdate : Store → UpsertCompanyDto → Store
  | [], _ => []
  | (k, v) :: rest, dto =>
    if k = dto.companyId then (k, dto) :: rest else (k, v) :: storeUpdate rest dto

/-- `upsertCompany` (companies.repository.ts): look up by `companyId`;
present → `updateOne` and report `created=false, updated=true` (the stored
`contentHash` is never consulted); absent → `create` and report
`created=true, updated=false`. -/
def upsertCompany (store : Store) (dto : UpsertCompanyDto) :
    Store × UpsertResult :=
  match storeFind dto.companyId store with
  | some _ =>
    (storeUpdate store dto, ⟨dto.companyId, false, true⟩)
  | none =>
    (store ++ [(dto.companyId, dto)], ⟨dto.companyId, true, false⟩)

end UpsertStore

section RunTracker

/-- `addError` (ingestion-run.repository.ts):
`$push { errorMessages: { $each: [msg], $slice: -10 } }` — append, then keep
only the last 10 entries. -/
def addError (errorMessages : List Str) (errorMessage : Str) : List Str :=
  let pushed := errorMessages ++ [errorMessage]
  pushed.drop (pushed.length - 10)

end RunTracker

section WireLevel

/-!
Wire-level model for the totality claim: a raw record as JSON actually
delivers it, every field possibly `undefined`.  Field accesses follow
JavaScript semantics: calling a method on `undefined` throws a `TypeError`,
`x ?? y` and truthiness guards absorb `undefined`.
-/

/-- A raw company record as it arrives over the wire: every field may be
absent. -/
structure JsRawCompany where
  name : Option Str
  sortingName : Option Str
  logo : Option Str
  hq : Option Str
  region : Option Str
  assetClass : Option Str
  industry : Option Str
  yoi : Option Str
  url : Option Str
  description : Option Str
  relatedLinkOne : Option Str
  relatedLinkOneTitle : Option Str
  relatedLinkTwo : Option Str
  relatedLinkTwoTitle : Option Str
deriving DecidableEq

/-- The `TypeError` thrown by `undefined.toLowerCase()`. -/
def typeErrorUndefined : JsError :=
  ⟨lit "TypeError", lit "Cannot read properties of undefined", false⟩

/-- `generateCompanyId` under wire-level semantics:
`raw.name.toLowerCase().trim()` throws when `name` is absent, while
`(raw.hq ?? '')` absorbs a missing `hq`. -/
def jsGenerateCompanyId (hash : Str → Str) (raw : JsRawCompany) :
    Except JsError Str :=
  match raw.name with
  | none => .error typeErrorUndefined
  | some n =>
    .ok (hash (jsTrim (jsToLower n) ++ '|' :: jsTrim (jsToLower (raw.hq.getD []))))

/-- One key/value entry of the wire-level content object, `none` when
`JSON.stringify` omits the key (bare field with `undefined` value). -/
def jsContentEntry (key : String) (v : Option Str) : Option Str :=
  v.map fun s => lit "\"" ++ lit key ++ lit "\":" ++ jsonStr s

/-- Wire-level `JSON.stringify` of the content object: the four bare fields
are omitted when `undefined`, the `|| ''` fields are always present. -/
def jsContentString (raw : JsRawCompany) : Str :=
  '\x7b' :: (List.intercalate (lit ",")
    (List.filterMap id
      [jsContentEntry "name" raw.name,
       jsContentEntry "assetClass" raw.assetClass,
       jsContentEntry "industry" raw.industry,
       jsContentEntry "region" raw.region,
       jsContentEntry "description" (some (jsOrEmpty raw.description)),
       jsContentEntry "url" (some (jsOrEmpty raw.url)),
       jsContentEntry "hq" (some (jsOrEmpty raw.hq)),
       jsContentEntry "yoi" (some (jsOrEmpty raw.yoi)),
       jsContentEntry "logo" (some (jsOrEmpty raw.logo)),
       jsContentEntry "relatedLinkOne" (some (jsOrEmpty raw.relatedLinkOne)),
       jsContentEntry "relatedLinkOneTitle" (some (jsOrEmpty raw.relatedLinkOneTitle)),
       jsContentEntry "relatedLinkTwo" (some (jsOrEmpty raw.relatedLinkTwo)),
       jsContentEntry "relatedLinkTwoTitle" (some (jsOrEmpty raw.relatedLinkTwoTitle))]))
    ++ ['\x7d']

/-- `generateContentHash` under wire-level semantics: never throws (bare
`undefined` fields are silently omitted by `JSON.stringify`). -/
def jsGenerateContentHash (hash : Str → Str) (raw : JsRawCompany) : Str :=
  hash (jsContentString raw)

/-- `splitAssetClasses` under wire-level semantics: the `if (!assetClassRaw)`
guard absorbs a missing field. -/
def jsSplitAssetClasses (assetClassRaw : Option Str) : List Str :=
  match assetClassRaw with
  | none => []
  | some s => splitAssetClasses s

/-- The wire-level counterpart of `UpsertCompanyDto` (the bare string fields
can be `undefined` at runtime). -/
structure JsUpsertCompanyDto where
  companyId : Str
  contentHash : Str
  name : Str
  nameSort : Str
  assetClassRaw : Option Str
  assetClasses : List Str
  industry : Option Str
  region : Option Str
  descriptionHtml : Option Str
  descriptionText : Option Str
  website : Option Str
  headquarters : Option Str
  yearOfInvestment : Option Str
  logoPath : Option Str
  logoUrl : Option Str
  relatedLinks : Option RelatedLinks
  source : SourceMeta
deriving DecidableEq

/-- `mapRawToCompanyDto` under wire-level semantics: `generateCompanyId`
(called first) throws a `TypeError` when `name` is absent; every other
missing field is absorbed by a guard (`?? ''`, `|| ''`, `|| undefined`,
truthiness checks) and becomes empty/absent. -/
def jsMapRawToCompanyDto (hash : Str → Str) (raw : JsRawCompany)
    (sourceEndpoint listUrl : Str) (fetchedAt : Nat) :
    Except JsError JsUpsertCompanyDto :=
  match raw.name with
  | none => .error typeErrorUndefined
  | some n =>
    .ok
      { companyId := hash (jsTrim (jsToLower n) ++ '|' :: jsTrim (jsToLower (raw.hq.getD [])))
        contentHash := jsGenerateContentHash hash raw
        name := n
        nameSort := jsToLower n
        assetClassRaw := raw.assetClass
        assetClasses := jsSplitAssetClasses raw.assetClass
        industry := raw.industry
        region := raw.region
        descriptionHtml := if jsTruthy raw.description then raw.description else none
        descriptionText := stripHtml raw.description
        website := normalizeUrl raw.url
        headquarters := if jsTruthy raw.hq then raw.hq else none
        yearOfInvestment := if jsTruthy raw.yoi then raw.yoi else none
        logoPath := if jsTruthy raw.logo then raw.logo else none
        logoUrl := buildLogoUrl raw.logo
        relatedLinks :=
          if jsTruthy raw.relatedLinkOne || jsTruthy raw.relatedLinkTwo then
            some
              { linkOne :=
                  if jsTruthy raw.relatedLinkOne || jsTruthy raw.relatedLinkOneTitle then
                    some { url := raw.relatedLinkOne, title := raw.relatedLinkOneTitle }
                  else none
                linkTwo :=
                  if jsTruthy raw.relatedLinkTwo || jsTruthy raw.relatedLinkTwoTitle then
                    some { url := raw.relatedLinkTwo, title := raw.relatedLinkTwoTitle }
                  else none }
          else none
        source := { listUrl := listUrl, endpoint := sourceEndpoint, fetchedAt := fetchedAt } }

end WireLevel

section AccumulatorLemmas

end AccumulatorLemmas

section LoopLemmas

/-- The page-loop step of `onePass`. -/
def pageStep (fetch : Nat → Nat → Except JsError PageFetchResult)
    (attempt : Nat) (a : AccMap) (pageNum : Nat) : AccMap :=
  match fetch attempt pageNum with
  | .error _ => a
  | .ok r => mergePage a r.companies

end LoopLemmas

section FetchReplacement

/-- Replace the outcome of one (attempt, page) pair of a fetch oracle. -/
def updateFetch (fetch : Nat → Nat → Except JsError PageFetchResult)
    (a p : Nat) (r : Except JsError PageFetchResult) :
    Nat → Nat → Except JsError PageFetchResult :=
  fun a' p' => if a' = a ∧ p' = p then r else fetch a' p'

end FetchReplacement

/-! ### Concrete inputs used by the closed theorems -/

/-- A complete normalized record, as the mapper would produce for one raw
company (used to replay an upsert). -/
def c1dto : UpsertCompanyDto where
  companyId := lit "c1"
  contentHash := lit "h1"
  name := lit "Test Company"
  nameSort := lit "test company"
  assetClassRaw := lit "Private Equity"
  assetClasses := [lit "Private Equity"]
  industry := lit "Technology"
  region := lit "Americas"
  descriptionHtml := none
  descriptionText := none
  website := none
  headquarters := some (lit "New York")
  yearOfInvestment := none
  logoPath := none
  logoUrl := none
  relatedLinks := none
  source := ⟨lit "https://example.com/list", lit "test-endpoint", 0⟩

/-- Raw record: one of two companies sharing a name but based in different
cities (the ON*NET Fibra pattern of the source's own tests). -/
def c2rawA : KkrRawCompany where
  name := lit "ON*NET Fibra"
  sortingName := lit "on*net fibra"
  logo := lit "/onnet.png"
  hq := lit "Santiago, Chile"
  region := lit "Americas"
  assetClass := lit "Infrastructure"
  industry := lit "Communication Services"
  yoi := lit "2021"
  url := lit ""
  description := lit ""
  relatedLinkOne := none
  relatedLinkOneTitle := none
  relatedLinkTwo := none
  relatedLinkTwoTitle := none

/-- Same company name, different headquarters: a different identity key. -/
def c2rawB : KkrRawCompany := { c2rawA with hq := lit "Bogota, Colombia" }

/-- Second record for the fingerprint witness: only the non-business
`sortingName` differs from `c2rawA`. -/
def c6rawB : KkrRawCompany := { c2rawA with sortingName := lit "fibra, on*net" }

/-- Raw record whose identity fields carry extra case and whitespace. -/
def c7rawA : KkrRawCompany := { c2rawA with
  name := lit "  ON*NET FIBRA", hq := lit "SANTIAGO, CHILE  " }

/-- A wire-level record with every field absent. -/
def c8rawMissingName : JsRawCompany where
  name := none
  sortingName := none
  logo := none
  hq := none
  region := none
  assetClass := none
  industry := none
  yoi := none
  url := none
  description := none
  relatedLinkOne := none
  relatedLinkOneTitle := none
  relatedLinkTwo := none
  relatedLinkTwoTitle := none

/-- A wire-level record with only the name present. -/
def c8rawNameOnly : JsRawCompany := { c8rawMissingName with name := some (lit "Acme") }

/-- A successful page answer used by the concrete fetch oracles. -/
def okPageOneRecord : PageFetchResult where
  companies := [c2rawA]
  pagination := ⟨1, 1, 1, 1⟩

/-- Fetch oracle whose page 1 always fails while every other page
succeeds. -/
def pageOneFailsFetch : Nat → Nat → Except JsError PageFetchResult :=
  fun _ p =>
    if p = 1 then .error ⟨lit "Error", lit "HTTP 500 fetching page 1", false⟩
    else .ok okPageOneRecord

/-- Fetch oracle that always succeeds (for the loop witnesses). -/
def alwaysOkFetch : Nat → Nat → Except JsError PageFetchResult :=
  fun _ _ => .ok okPageOneRecord

/-- Response oracle distinguishing the abort semantics: attempt 1 returns an
HTTP 429, attempt 2 a good page. -/
def rateLimitedThenOkResponses : Nat → HttpResponse :=
  fun a =>
    if a = 1 then ⟨429, none⟩
    else ⟨200, some ⟨true, lit "", 296, 20, some [c2rawA]⟩⟩

/-! ## Proofs -/

theorem stripLit_append (l s : Str) : stripLit l (l ++ s) = some s := by
  induction l with
  | nil => rfl
  | cons c ls ih => simp [stripLit, ih]

theorem char_ofNat_toNat_of_lt (c : Char) (h : c.toNat < 32) : Char.ofNat c.toNat = c := by
  have hv : c.toNat.isValidChar := Or.inl (by omega)
  apply Char.ext
  simp only [Char.ofNat, dif_pos hv, Char.ofNatAux]
  apply UInt32.ext
  simp only [Char.toNat, BitVec.ofNatLt]
  rfl

theorem hexVal_hexDigitChar {n : Nat} (h : n < 16) : hexVal (hexDigitChar n) = n := by
  interval_cases n <;> decide

theorem jsonUnescape_quote (rest : Str) : jsonUnescape ('"' :: rest) = some ([], rest) := by
  rw [jsonUnescape.eq_def]; simp

theorem jsonUnescape_esc (e : Char) (rest : Str) (h : e ≠ 'u') :
    jsonUnescape ('\\' :: e :: rest) =
      (jsonUnescape rest).map fun p => (jsonUnescapeChar e :: p.1, p.2) := by
  rw [jsonUnescape.eq_def]; simp [h]

theorem jsonUnescape_u (a b c2 d : Char) (rest : Str) :
    jsonUnescape ('\\' :: 'u' :: a :: b :: c2 :: d :: rest) =
      (jsonUnescape rest).map fun p =>
        (Char.ofNat (((hexVal a * 16 + hexVal b) * 16 + hexVal c2) * 16 + hexVal d) :: p.1, p.2) := by
  rw [jsonUnescape.eq_def]; simp

theorem jsonUnescape_other (c : Char) (rest : Str) (h1 : c ≠ '"') (h2 : c ≠ '\\') :
    jsonUnescape (c :: rest) =
      (jsonUnescape rest).map fun p => (c :: p.1, p.2) := by
  rw [jsonUnescape.eq_def]; simp [h1, h2]

/-- Roundtrip: the greedy decoder inverts `jsonEscape` and finds the closing
quote, whatever follows it. -/
theorem jsonUnescape_escape (s t : Str) :
    jsonUnescape (jsonEscape s ++ '"' :: t) = some (s, t) := by
  induction s with
  | nil => exact jsonUnescape_quote t
  | cons c s ih =>
    have hshape : jsonEscape (c :: s) ++ '"' :: t =
        jsonEscapeChar c ++ (jsonEscape s ++ '"' :: t) := by
      simp [jsonEscape]
    rw [hshape]
    by_cases h1 : c = '"'
    · subst h1
      rw [show jsonEscapeChar '"' = ['\\', '"'] from rfl]
      rw [List.cons_append, List.cons_append, List.nil_append,
        jsonUnescape_esc _ _ (by decide), ih]
      simp [jsonUnescapeChar]
    by_cases h2 : c = '\\'
    · subst h2
      rw [show jsonEscapeChar '\\' = ['\\', '\\'] from rfl]
      rw [List.cons_append, List.cons_append, List.nil_append,
        jsonUnescape_esc _ _ (by decide), ih]
      simp [jsonUnescapeChar]
    by_cases h3 : c = '\x08'
    · subst h3
      rw [show jsonEscapeChar '\x08' = ['\\', 'b'] from rfl]
      rw [List.cons_append, List.cons_append, List.nil_append,
        jsonUnescape_esc _ _ (by decide), ih]
      simp [jsonUnescapeChar]
    by_cases h4 : c = '\x0c'
    · subst h4
      rw [show jsonEscapeChar '\x0c' = ['\\', 'f'] from rfl]
      rw [List.cons_append, List.cons_append, List.nil_append,
        jsonUnescape_esc _ _ (by decide), ih]
      simp [jsonUnescapeChar]
    by_cases h5 : c = '\n'
    · subst h5
      rw [show jsonEscapeChar '\n' = ['\\', 'n'] from rfl]
      rw [List.cons_append, List.cons_append, List.nil_append,
        jsonUnescape_esc _ _ (by decide), ih]
      simp [jsonUnescapeChar]
    by_cases h6 : c = '\r'
    · subst h6
      rw [show jsonEscapeChar '\r' = ['\\', 'r'] from rfl]
      rw [List.cons_append, List.cons_append, List.nil_append,
        jsonUnescape_esc _ _ (by decide), ih]
      simp [jsonUnescapeChar]
    by_cases h7 : c = '\t'
    · subst h7
      rw [show jsonEscapeChar '\t' = ['\\', 't'] from rfl]
      rw [List.cons_append, List.cons_append, List.nil_append,
        jsonUnescape_esc _ _ (by decide), ih]
      simp [jsonUnescapeChar]
    by_cases h8 : c.toNat < 32
    · have hlow : c.toNat / 16 < 16 := by omega
      have hhigh : c.toNat % 16 < 16 := by omega
      have hzero : hexVal '0' = 0 := by decide
      have hv : ((hexVal '0' * 16 + hexVal '0') * 16 +
            hexVal (hexDigitChar (c.toNat / 16))) * 16 +
            hexVal (hexDigitChar (c.toNat % 16)) = c.toNat := by
        rw [hzero, hexVal_hexDigitChar hlow, hexVal_hexDigitChar hhigh]; omega
      rw [show jsonEscapeChar c =
          ['\\', 'u', '0', '0', hexDigitChar (c.toNat / 16), hexDigitChar (c.toNat % 16)] by
        simp [jsonEscapeChar, h1, h2, h3, h4, h5, h6, h7, h8]]
      rw [List.cons_append, List.cons_append, List.cons_append, List.cons_append,
        List.cons_append, List.cons_append, List.nil_append, jsonUnescape_u, ih]
      simp [hv, char_ofNat_toNat_of_lt c h8]
    · rw [show jsonEscapeChar c = [c] by
        simp [jsonEscapeChar, h1, h2, h3, h4, h5, h6, h7, h8]]
      rw [List.cons_append, List.nil_append, jsonUnescape_other _ _ h1 h2, ih]
      simp

theorem decodeField_encode (key : String) (v rest : Str) :
    decodeField key (lit key ++ (jsonStr v ++ rest)) = some (v, rest) := by
  simp only [decodeField, stripLit_append, jsonStr, List.cons_append, List.tail_cons,
    List.append_assoc, List.singleton_append]
  exact jsonUnescape_escape v rest

/-- The serializer is left-inverted by the decoder. -/
theorem decode_encode (b : BusinessFields) :
    decodeBusinessFields (encodeBusinessFields b) = some b := by
  simp only [encodeBusinessFields, List.append_assoc]
  simp [decodeBusinessFields, decodeField_encode]

/-- The canonical serialization is injective on the business-field tuples:
equal content strings force equal business fields. -/
theorem encodeBusinessFields_inj {b1 b2 : BusinessFields}
    (h : encodeBusinessFields b1 = encodeBusinessFields b2) : b1 = b2 := by
  have h1 := decode_encode b1
  rw [h, decode_encode b2] at h1
  exact (Option.some.injEq _ _).mp h1.symm

/-- `contentString` is determined by, and determines, the business fields. -/
theorem contentString_eq_iff (r1 r2 : KkrRawCompany) :
    contentString r1 = contentString r2 ↔ businessFields r1 = businessFields r2 := by
  constructor
  · exact fun h => encodeBusinessFields_inj h
  · intro h
    simp [contentString, h]

theorem allWs_nil : AllWs [] := by intro c hc; cases hc

theorem allWs_reverse {w : Str} (h : AllWs w) : AllWs w.reverse := by
  intro c hc
  exact h c (List.mem_reverse.mp hc)

theorem allWs_jsToLower {w : Str} (h : AllWs w) : AllWs (jsToLower w) := by
  intro c hc
  rcases List.mem_map.mp hc with ⟨d, hd, rfl⟩
  have hdw := h d hd
  have hfix : Char.toLower d = d := by
    simp only [jsIsWs, Bool.or_eq_true, decide_eq_true_eq] at hdw
    rcases hdw with ((((((rfl | rfl) | rfl) | rfl) | rfl) | rfl) | rfl) | rfl <;> decide
  rw [hfix]
  exact h d hd

theorem dropWhile_ws_append {w : Str} (s : Str) (h : AllWs w) :
    (w ++ s).dropWhile jsIsWs = s.dropWhile jsIsWs := by
  induction w with
  | nil => simp
  | cons c wtl ih =>
    have hc : jsIsWs c = true := h c (List.mem_cons_self c wtl)
    have htl : AllWs wtl := fun d hd => h d (List.mem_cons_of_mem c hd)
    simp [List.dropWhile, hc, ih htl]

theorem dropWhile_all_ws {w : Str} (h : AllWs w) : w.dropWhile jsIsWs = [] := by
  have := dropWhile_ws_append (w := w) [] h
  simpa using this

/-- Trailing whitespace does not change the doubly-trimmed result. -/
theorem trimRight_ws_append (s : Str) {w : Str} (h : AllWs w) :
    (((s ++ w).dropWhile jsIsWs).reverse.dropWhile jsIsWs).reverse =
      ((s.dropWhile jsIsWs).reverse.dropWhile jsIsWs).reverse := by
  induction s with
  | nil =>
    simp [dropWhile_all_ws h, dropWhile_all_ws (allWs_reverse h)]
  | cons c s ih =>
    by_cases hc : jsIsWs c = true
    · simpa [List.dropWhile, hc] using ih
    · simp only [List.cons_append, List.dropWhile, hc, Bool.false_eq_true, if_false]
      simp only [List.reverse_cons, List.append_eq]
      rw [List.reverse_append, List.append_assoc, dropWhile_ws_append _ (allWs_reverse h)]

/-- `jsTrim` ignores surrounding whitespace. -/
theorem jsTrim_ws (w1 w2 s : Str) (h1 : AllWs w1) (h2 : AllWs w2) :
    jsTrim (w1 ++ s ++ w2) = jsTrim s := by
  unfold jsTrim
  rw [List.append_assoc, dropWhile_ws_append _ h1]
  exact trimRight_ws_append s h2

/-- The normalization `toLowerCase().trim()` is invariant under
case/whitespace variation. -/
theorem trim_toLower_of_caseWsVariant {s t : Str} (h : CaseWsVariant s t) :
    jsTrim (jsToLower s) = jsTrim (jsToLower t) := by
  rcases h with ⟨w1, w2, w3, w4, u, v, hw1, hw2, hw3, hw4, huv, rfl, rfl⟩
  have e1 : jsToLower (w1 ++ u ++ w2) = jsToLower w1 ++ jsToLower u ++ jsToLower w2 := by
    simp [jsToLower]
  have e2 : jsToLower (w3 ++ v ++ w4) = jsToLower w3 ++ jsToLower v ++ jsToLower w4 := by
    simp [jsToLower]
  rw [e1, e2, jsTrim_ws _ _ _ (allWs_jsToLower hw1) (allWs_jsToLower hw2),
    jsTrim_ws _ _ _ (allWs_jsToLower hw3) (allWs_jsToLower hw4), huv]

theorem accFind_append_of_some {k : Str} {acc : AccMap} {v : KkrRawCompany}
    (l : AccMap) (h : accFind k acc = some v) : accFind k (acc ++ l) = some v := by
  induction acc with
  | nil => simp [accFind] at h
  | cons p rest ih =>
    obtain ⟨k', v'⟩ := p
    by_cases hk : k' = k
    · simp [accFind, hk] at h ⊢
      exact h
    · simp [accFind, hk] at h ⊢
      exact ih h

theorem accFind_append_self {k : Str} {acc : AccMap} (v : KkrRawCompany)
    (h : accFind k acc = none) : accFind k (acc ++ [(k, v)]) = some v := by
  induction acc with
  | nil => simp [accFind]
  | cons p rest ih =>
    obtain ⟨k', v'⟩ := p
    by_cases hk : k' = k
    · simp [accFind, hk] at h
    · simp [accFind, hk] at h ⊢
      exact ih h

theorem accFind_append_ne {k k' : Str} {acc : AccMap} (v : KkrRawCompany)
    (h : k' ≠ k) : accFind k (acc ++ [(k', v)]) = accFind k acc := by
  induction acc with
  | nil => simp [accFind, h]
  | cons p rest ih =>
    obtain ⟨k2, v2⟩ := p
    by_cases hk : k2 = k
    · simp [accFind, hk]
    · simp [accFind, hk, ih]

theorem accAdd_preserves {k : Str} {acc : AccMap} {v : KkrRawCompany}
    (c : KkrRawCompany) (h : accFind k acc = some v) :
    accFind k (accAdd acc c) = some v := by
  unfold accAdd
  by_cases hmem : (accFind (accKey c) acc).isSome
  · simp [hmem, h]
  · simp [hmem]
    exact accFind_append_of_some _ h

theorem mergePage_preserves {k : Str} {v : KkrRawCompany}
    (cs : List KkrRawCompany) :
    ∀ acc : AccMap, accFind k acc = some v →
      accFind k (mergePage acc cs) = some v := by
  induction cs with
  | nil => intro acc h; exact h
  | cons c rest ih =>
    intro acc h
    exact ih _ (accAdd_preserves c h)

theorem accAdd_covers (acc : AccMap) (c : KkrRawCompany) :
    ∃ v, accFind (accKey c) (accAdd acc c) = some v := by
  unfold accAdd
  cases hmem : accFind (accKey c) acc with
  | some v => exact ⟨v, by simp [hmem]⟩
  | none => exact ⟨c, by simp [hmem, accFind_append_self c hmem]⟩

theorem mergePage_covers (cs : List KkrRawCompany) :
    ∀ acc : AccMap, ∀ c ∈ cs, ∃ v, accFind (accKey c) (mergePage acc cs) = some v := by
  induction cs with
  | nil => intro acc c hc; cases hc
  | cons c0 rest ih =>
    intro acc c hc
    rcases List.mem_cons.mp hc with rfl | hmem
    · obtain ⟨v, hv⟩ := accAdd_covers acc c
      exact ⟨v, mergePage_preserves rest _ hv⟩
    · exact ih (accAdd acc c0) c hmem

theorem accAdd_none_of_ne {k : Str} {acc : AccMap} (c : KkrRawCompany)
    (hne : accKey c ≠ k) (h : accFind k acc = none) :
    accFind k (accAdd acc c) = none := by
  unfold accAdd
  by_cases hmem : (accFind (accKey c) acc).isSome
  · simp [hmem, h]
  · simp [hmem, accFind_append_ne c hne, h]

theorem mergePage_none_of_ne {k : Str} (cs : List KkrRawCompany)
    (hne : ∀ c ∈ cs, accKey c ≠ k) :
    ∀ acc : AccMap, accFind k acc = none →
      accFind k (mergePage acc cs) = none := by
  induction cs with
  | nil => intro acc h; exact h
  | cons c rest ih =>
    intro acc h
    exact ih (fun d hd => hne d (List.mem_cons_of_mem c hd))
      _ (accAdd_none_of_ne c (hne c (List.mem_cons_self c rest)) h)

theorem mergePage_append (acc : AccMap) (l1 l2 : List KkrRawCompany) :
    mergePage acc (l1 ++ l2) = mergePage (mergePage acc l1) l2 := by
  simp [mergePage, List.foldl_append]

theorem onePass_eq_pageStep (fetch : Nat → Nat → Except JsError PageFetchResult)
    (attempt : Nat) (acc : AccMap) :
    onePass fetch attempt acc =
      match fetch attempt 1 with
      | .error e => .error e
      | .ok first =>
        .ok ((List.range' 2 (first.pagination.totalPages - 1)).foldl
              (pageStep fetch attempt) (mergePage acc first.companies),
            first.pagination.totalHits, first.pagination.totalPages) := by
  unfold onePass pageStep
  rfl

theorem foldl_pageStep_preserves {k : Str} {v : KkrRawCompany}
    (fetch : Nat → Nat → Except JsError PageFetchResult) (attempt : Nat)
    (l : List Nat) :
    ∀ acc : AccMap, accFind k acc = some v →
      accFind k (l.foldl (pageStep fetch attempt) acc) = some v := by
  induction l with
  | nil => intro acc h; exact h
  | cons p rest ih =>
    intro acc h
    apply ih
    unfold pageStep
    cases fetch attempt p with
    | error e => exact h
    | ok r => exact mergePage_preserves _ _ h

theorem onePass_preserves {k : Str} {v : KkrRawCompany}
    {fetch : Nat → Nat → Except JsError PageFetchResult} {attempt : Nat}
    {acc acc' : AccMap} {th tp : Nat}
    (hrun : onePass fetch attempt acc = .ok (acc', th, tp))
    (h : accFind k acc = some v) : accFind k acc' = some v := by
  rw [onePass_eq_pageStep] at hrun
  cases hfetch : fetch attempt 1 with
  | error e => rw [hfetch] at hrun; cases hrun
  | ok first =>
    rw [hfetch] at hrun
    injection hrun with h1
    injection h1 with h2 h3
    subst h2
    exact foldl_pageStep_preserves _ _ _ _ (mergePage_preserves _ _ h)

theorem accLoop_preserves {k : Str} {v : KkrRawCompany}
    (fetch : Nat → Nat → Except JsError PageFetchResult) :
    ∀ (fuel attempt : Nat) (acc : AccMap) (th tp : Nat) (out : AccLoopOut),
      accLoop fetch fuel attempt acc th tp = .ok out →
      accFind k acc = some v → accFind k out.acc = some v := by
  intro fuel
  induction fuel with
  | zero =>
    intro attempt acc th tp out hrun h
    unfold accLoop at hrun
    injection hrun with h1
    subst h1
    exact h
  | succ f ih =>
    intro attempt acc th tp out hrun h
    unfold accLoop at hrun
    cases hpass : onePass fetch (attempt + 1) acc with
    | error e => rw [hpass] at hrun; cases hrun
    | ok trip =>
      obtain ⟨acc', th', tp'⟩ := trip
      rw [hpass] at hrun
      simp only at hrun
      by_cases hconv : th' ≤ acc'.length
      · rw [if_pos hconv] at hrun
        injection hrun with h1
        subst h1
        exact onePass_preserves hpass h
      · rw [if_neg hconv] at hrun
        exact ih _ _ _ _ _ hrun (onePass_preserves hpass h)

theorem accLoop_attempts (fetch : Nat → Nat → Except JsError PageFetchResult) :
    ∀ (fuel attempt : Nat) (acc : AccMap) (th tp : Nat) (out : AccLoopOut),
      accLoop fetch fuel attempt acc th tp = .ok out →
      out.attempts ≤ attempt + fuel ∧
        (out.acc.length < out.totalHits → out.attempts = attempt + fuel) := by
  intro fuel
  induction fuel with
  | zero =>
    intro attempt acc th tp out hrun
    unfold accLoop at hrun
    injection hrun with h1
    subst h1
    exact ⟨Nat.le_refl _, fun _ => rfl⟩
  | succ f ih =>
    intro attempt acc th tp out hrun
    unfold accLoop at hrun
    cases hpass : onePass fetch (attempt + 1) acc with
    | error e => rw [hpass] at hrun; cases hrun
    | ok trip =>
      obtain ⟨acc', th', tp'⟩ := trip
      rw [hpass] at hrun
      simp only at hrun
      by_cases hconv : th' ≤ acc'.length
      · rw [if_pos hconv] at hrun
        injection hrun with h1
        subst h1
        refine ⟨?_, fun hlt => ?_⟩
        · show attempt + 1 ≤ attempt + (f + 1)
          omega
        · have hlt' : acc'.length < th' := hlt
          exact absurd hconv (by omega)
      · rw [if_neg hconv] at hrun
        obtain ⟨ha, hb⟩ := ih _ _ _ _ _ hrun
        refine ⟨by omega, fun hlt => ?_⟩
        rw [hb hlt]
        omega

theorem accLoop_isOk (fetch : Nat → Nat → Except JsError PageFetchResult)
    (hfirst : ∀ a, (fetch a 1).isOk = true) :
    ∀ (fuel attempt : Nat) (acc : AccMap) (th tp : Nat),
      ∃ out, accLoop fetch fuel attempt acc th tp = .ok out := by
  intro fuel
  induction fuel with
  | zero =>
    intro attempt acc th tp
    exact ⟨_, rfl⟩
  | succ f ih =>
    intro attempt acc th tp
    have h1 := hfirst (attempt + 1)
    cases hfetch : fetch (attempt + 1) 1 with
    | error e => rw [hfetch] at h1; cases h1
    | ok first =>
      have hpass : onePass fetch (attempt + 1) acc =
          .ok ((List.range' 2 (first.pagination.totalPages - 1)).foldl
                (pageStep fetch (attempt + 1)) (mergePage acc first.companies),
              first.pagination.totalHits, first.pagination.totalPages) := by
        rw [onePass_eq_pageStep, hfetch]
      set acc' := (List.range' 2 (first.pagination.totalPages - 1)).foldl
        (pageStep fetch (attempt + 1)) (mergePage acc first.companies)
      unfold accLoop
      rw [hpass]
      simp only
      by_cases hconv : first.pagination.totalHits ≤ acc'.length
      · rw [if_pos hconv]
        exact ⟨_, rfl⟩
      · rw [if_neg hconv]
        exact ih _ _ _ _

theorem foldl_pageStep_congr
    (fetch1 fetch2 : Nat → Nat → Except JsError PageFetchResult)
    (attempt : Nat) (l : List Nat)
    (h : ∀ q ∈ l, ∀ acc : AccMap,
      pageStep fetch1 attempt acc q = pageStep fetch2 attempt acc q) :
    ∀ acc : AccMap,
      l.foldl (pageStep fetch1 attempt) acc = l.foldl (pageStep fetch2 attempt) acc := by
  induction l with
  | nil => intro acc; rfl
  | cons q rest ih =>
    intro acc
    simp only [List.foldl_cons]
    rw [h q (List.mem_cons_self q rest) acc]
    exact ih (fun q' hq' acc' => h q' (List.mem_cons_of_mem q hq') acc') _

/-! ### Claim theorems -/

/-- C10: for every `UpsertCompanyDto`, `upsertCompany` reports exactly one of
`created`/`updated`: `created=true` exactly when no record with that
`companyId` existed before the call, `updated=true` exactly when one did;
the flags are never both true and never both false. -/
theorem upsertCompany_exactly_one_flag (store : Store) (dto : UpsertCompanyDto) :
    ((upsertCompany store dto).2.created = true ↔ storeFind dto.companyId store = none) ∧
    ((upsertCompany store dto).2.updated = true ↔ storeFind dto.companyId store ≠ none) ∧
    (upsertCompany store dto).2.created = !(upsertCompany store dto).2.updated := by
  unfold upsertCompany
  cases h : storeFind dto.companyId store <;> simp

/-- C9: the run's error-sample list is bounded by 10: `addError` never
produces more than 10 entries, and appending at the cap drops exactly the
oldest entry, keeping the rest in order, then appends the new message. -/
theorem addError_capped (msgs : List Str) (m : Str) :
    (addError msgs m).length ≤ 10 ∧
    (msgs.length = 10 → addError msgs m = msgs.drop 1 ++ [m]) := by
  constructor
  · unfold addError
    simp only [List.length_drop]
    omega
  · intro h
    show (msgs ++ [m]).drop ((msgs ++ [m]).length - 10) = msgs.drop 1 ++ [m]
    have hlen : (msgs ++ [m]).length - 10 = 1 := by simp [h]
    rw [hlen, List.drop_append_of_le_length (by omega)]

/-- C9 witness: a full 10-element sample list, at the cap. -/
theorem addError_capped_witness :
    (List.replicate 10 (lit "err")).length = 10 ∧
    addError (List.replicate 10 (lit "err")) (lit "new") =
      (List.replicate 10 (lit "err")).drop 1 ++ [lit "new"] :=
  ⟨by simp, (addError_capped (List.replicate 10 (lit "err")) (lit "new")).2 (by simp)⟩

/-- C1 (claim is right, code is wrong): replaying the very same normalized
record — identityKey present with an unchanged contentFingerprint — makes
`upsertCompany` run the update write path and report `created=false,
updated=true`, where the spec (and the repository's own README/design docs)
require a no-write with `created=false, updated=false`.  This theorem
evaluates the code at the failing input. -/
theorem upsert_replay_reports_update :
    (upsertCompany [] c1dto).2 = ⟨lit "c1", true, false⟩ ∧
    (upsertCompany (upsertCompany [] c1dto).1 c1dto).2 = ⟨lit "c1", false, true⟩ ∧
    c1dto.contentHash = c1dto.contentHash := by
  refine ⟨rfl, ?_, rfl⟩
  rfl

/-- C8 counterexample: on a wire-level record with no `name` field, the
normalizer throws a `TypeError` (from `raw.name.toLowerCase()` inside
`generateCompanyId`) instead of treating the missing identity field as
empty. -/
theorem jsMap_missing_name_throws :
    jsMapRawToCompanyDto (fun s => s) c8rawMissingName (lit "endpoint") (lit "list") 0 =
      .error typeErrorUndefined ∧
    jsGenerateCompanyId (fun s => s) c8rawMissingName = .error typeErrorUndefined :=
  ⟨rfl, rfl⟩

/-- C8 amended: the normalizer is pure and total on every wire-level record
whose `name` field is present: all other malformed or missing fields
(including a missing `hq`, the other identity-derivation field) default to
empty/absent; only a missing `name` raises an error. -/
theorem jsMap_total_of_name_present (hash : Str → Str) (raw : JsRawCompany)
    (sourceEndpoint listUrl : Str) (fetchedAt : Nat) (h : raw.name ≠ none) :
    (jsMapRawToCompanyDto hash raw sourceEndpoint listUrl fetchedAt).isOk = true ∧
    (jsGenerateCompanyId hash raw).isOk = true := by
  cases hname : raw.name with
  | none => exact absurd hname h
  | some n =>
    unfold jsMapRawToCompanyDto jsGenerateCompanyId
    rw [hname]
    exact ⟨rfl, rfl⟩

/-- C8 witness: a record carrying only a name maps without error. -/
theorem jsMap_total_witness :
    c8rawNameOnly.name ≠ none ∧
    (jsMapRawToCompanyDto (fun s => s) c8rawNameOnly (lit "e") (lit "l") 0).isOk = true :=
  ⟨by simp [c8rawNameOnly, c8rawMissingName],
    (jsMap_total_of_name_present (fun s => s) c8rawNameOnly (lit "e") (lit "l") 0
      (by simp [c8rawNameOnly, c8rawMissingName])).1⟩

/-- C2 counterexample: the accumulator is keyed by the lowercased trimmed
name, not by `deriveIdentity`: two records with the same name but different
headquarters have different identity keys, yet only the first is kept. -/
theorem accumulator_not_keyed_by_identity :
    generateCompanyId (fun s => s) c2rawA ≠ generateCompanyId (fun s => s) c2rawB ∧
    mergePage [] [c2rawA, c2rawB] = [(accKey c2rawA, c2rawA)] := by
  refine ⟨by decide, by rfl⟩

/-- C2 amended: the accumulator map is keyed by
`company.name.toLowerCase().trim()`; the first occurrence of a key wins
(an existing entry is never replaced), every fetched record's name key is
present afterwards, and the first fetched record of a fresh name key is the
value stored for it. -/
theorem mergePage_first_wins_by_name (acc : AccMap) (cs : List KkrRawCompany) :
    (∀ k v, accFind k acc = some v → accFind k (mergePage acc cs) = some v) ∧
    (∀ c ∈ cs, ∃ v, accFind (accKey c) (mergePage acc cs) = some v) ∧
    (∀ c cs1 cs2, cs = cs1 ++ c :: cs2 → accFind (accKey c) acc = none →
      (∀ c' ∈ cs1, accKey c' ≠ accKey c) →
      accFind (accKey c) (mergePage acc cs) = some c) := by
  refine ⟨fun k v h => mergePage_preserves cs acc h,
    fun c hc => mergePage_covers cs acc c hc, ?_⟩
  intro c cs1 cs2 hsplit hnone hne
  subst hsplit
  rw [mergePage_append]
  have h1 : accFind (accKey c) (mergePage acc cs1) = none :=
    mergePage_none_of_ne cs1 hne acc hnone
  have h2 : accFind (accKey c) (accAdd (mergePage acc cs1) c) = some c := by
    unfold accAdd
    rw [h1]
    simp [accFind_append_self c h1]
  exact mergePage_preserves cs2 _ h2

/-- C2 witness: inserting one fresh record stores it under its name key. -/
theorem mergePage_first_wins_by_name_witness :
    ([c2rawA] = [] ++ c2rawA :: []) ∧ accFind (accKey c2rawA) [] = none ∧
    accFind (accKey c2rawA) (mergePage [] [c2rawA]) = some c2rawA :=
  ⟨rfl, rfl,
    (mergePage_first_wins_by_name [] [c2rawA]).2.2 c2rawA [] [] rfl rfl
      (fun c' hc' => absurd hc' (List.not_mem_nil c'))⟩

/-- C7: `generateCompanyId` is deterministic, and changing only the letter
case or the surrounding whitespace of the composite key's source fields
(`name` and the `hq` location field) leaves the identity key unchanged,
whatever the other fields are. -/
theorem generateCompanyId_caseWs_invariant (hash : Str → Str)
    (r1 r2 : KkrRawCompany)
    (hname : CaseWsVariant r1.name r2.name)
    (hhq : CaseWsVariant r1.hq r2.hq) :
    generateCompanyId hash r1 = generateCompanyId hash r1 ∧
    generateCompanyId hash r1 = generateCompanyId hash r2 := by
  refine ⟨rfl, ?_⟩
  unfold generateCompanyId companyIdKey
  rw [trim_toLower_of_caseWsVariant hname, trim_toLower_of_caseWsVariant hhq]

/-- C7 witness: `"  ON*NET FIBRA" / "SANTIAGO, CHILE  "` and
`"ON*NET Fibra" / "Santiago, Chile"` get the same identity key. -/
theorem generateCompanyId_caseWs_invariant_witness :
    CaseWsVariant c7rawA.name c2rawA.name ∧
    CaseWsVariant c7rawA.hq c2rawA.hq ∧
    generateCompanyId (fun s => s) c7rawA = generateCompanyId (fun s => s) c2rawA := by
  have hname : CaseWsVariant c7rawA.name c2rawA.name :=
    ⟨lit "  ", [], [], [], lit "ON*NET FIBRA", lit "ON*NET Fibra",
      by unfold AllWs; decide, by unfold AllWs; decide, by unfold AllWs; decide,
      by unfold AllWs; decide, by decide, by decide, by decide⟩
  have hhq : CaseWsVariant c7rawA.hq c2rawA.hq :=
    ⟨[], lit "  ", [], [], lit "SANTIAGO, CHILE", lit "Santiago, Chile",
      by unfold AllWs; decide, by unfold AllWs; decide, by unfold AllWs; decide,
      by unfold AllWs; decide, by decide, by decide, by decide⟩
  exact ⟨hname, hhq,
    (generateCompanyId_caseWs_invariant (fun s => s) c7rawA c2rawA hname hhq).2⟩

/-- C6: for an injective hash, two raw records have equal content
fingerprints exactly when their thirteen business fields (with the source's
empty-string defaults) are equal — so the fingerprint is unaffected by the
volatile non-business fields (`sortingName`, and the fetch timestamp, which
is attached after hashing and cannot influence it), and it changes exactly
when some business field changes. -/
theorem generateContentHash_stability (hash : Str → Str)
    (hinj : Function.Injective hash) (r1 r2 : KkrRawCompany) :
    (generateContentHash hash r1 = generateContentHash hash r2 ↔
      businessFields r1 = businessFields r2) ∧
    (∀ sourceEndpoint listUrl fetchedAt1 fetchedAt2,
      (mapRawToCompanyDto hash r1 sourceEndpoint listUrl fetchedAt1).contentHash =
        (mapRawToCompanyDto hash r1 sourceEndpoint listUrl fetchedAt2).contentHash) := by
  constructor
  · constructor
    · intro h
      exact (contentString_eq_iff r1 r2).mp (hinj h)
    · intro h
      unfold generateContentHash contentString
      rw [h]
  · intro sourceEndpoint listUrl t1 t2
    rfl

/-- C6 witness: records differing only in the volatile `sortingName` have
equal business fields and hence equal fingerprints (hash taken injective,
here the identity). -/
theorem generateContentHash_stability_witness :
    Function.Injective (fun s : Str => s) ∧
    businessFields c2rawA = businessFields c6rawB ∧
    generateContentHash (fun s : Str => s) c2rawA =
      generateContentHash (fun s : Str => s) c6rawB :=
  ⟨fun a b h => h, by decide,
    ((generateContentHash_stability (fun s => s) (fun a b h => h) c2rawA c6rawB).1).mpr
      (by decide)⟩

/-- C3 counterexample: a failure of page 1 is NOT skipped — it propagates
out of `fetchAllPages` and aborts the run (page 1 is fetched outside the
try/catch that protects pages 2..N). -/
theorem fetchAllPages_aborts_on_page_one_failure :
    fetchAllPages pageOneFailsFetch =
      .error ⟨lit "Error", lit "HTTP 500 fetching page 1", false⟩ := by
  rfl

/-- C3 amended: failures of pages 2..N during a pass are skipped — the pass
continues and the run is never aborted by them (if every attempt's page-1
fetch succeeds the whole accumulation succeeds), and a failed later page
behaves exactly as if it had returned an empty page; only a page-1 failure
propagates. -/
theorem page_failures_skipped_except_page_one
    (fetch : Nat → Nat → Except JsError PageFetchResult) :
    ((∀ a, (fetch a 1).isOk = true) → (fetchAllPages fetch).isOk = true) ∧
    (∀ a acc p e r, 2 ≤ p → fetch a p = .error e → r.companies = [] →
      onePass (updateFetch fetch a p (.ok r)) a acc = onePass fetch a acc) := by
  constructor
  · intro hfirst
    obtain ⟨out, hout⟩ := accLoop_isOk fetch hfirst maxAccumulationAttempts 0 [] 0 0
    unfold fetchAllPages
    rw [hout]
    rfl
  · intro a acc p e r hp he hr
    rw [onePass_eq_pageStep, onePass_eq_pageStep]
    have hfetch1 : updateFetch fetch a p (.ok r) a 1 = fetch a 1 := by
      unfold updateFetch
      rw [if_neg]
      rintro ⟨-, h1p⟩
      omega
    rw [hfetch1]
    cases hf : fetch a 1 with
    | error e2 => rfl
    | ok first =>
      have hpoint : ∀ q ∈ List.range' 2 (first.pagination.totalPages - 1),
          ∀ acc' : AccMap,
          pageStep (updateFetch fetch a p (.ok r)) a acc' q = pageStep fetch a acc' q := by
        intro q hq acc'
        by_cases hqp : q = p
        · subst hqp
          simp [pageStep, updateFetch, he, hr, mergePage]
        · simp [pageStep, updateFetch, hqp]
      have hfold := foldl_pageStep_congr (updateFetch fetch a p (.ok r)) fetch a
        (List.range' 2 (first.pagination.totalPages - 1)) hpoint
        (mergePage acc first.companies)
      simp only
      rw [hfold]

/-- C3 witness: with page 1 always succeeding (and here every page), the
accumulation completes. -/
theorem page_failures_skipped_witness :
    (∀ a, (alwaysOkFetch a 1).isOk = true) ∧
    (fetchAllPages alwaysOkFetch).isOk = true :=
  ⟨fun _ => rfl,
    (page_failures_skipped_except_page_one alwaysOkFetch).1 (fun _ => rfl)⟩

/-- C4: the accumulator grows monotonically across passes (a collected
entry is never removed or replaced), the loop returns as soon as a pass
reaches the source-reported total, and otherwise runs passes up to the
budget of 5, after which the best-effort set is returned without an error
(the attempt count equals 5 exactly when the returned set is still short of
the total). -/
theorem accumulation_monotone_convergent_capped
    (fetch : Nat → Nat → Except JsError PageFetchResult)
    (hfirst : ∀ a, (fetch a 1).isOk = true) :
    (∀ fuel attempt acc th tp out, accLoop fetch fuel attempt acc th tp = .ok out →
      ∀ k v, accFind k acc = some v → accFind k out.acc = some v) ∧
    (∀ fuel attempt acc th0 tp0 acc' th tp,
      onePass fetch (attempt + 1) acc = .ok (acc', th, tp) → th ≤ acc'.length →
      accLoop fetch (fuel + 1) attempt acc th0 tp0 = .ok ⟨acc', th, tp, attempt + 1⟩) ∧
    (∃ out, fetchAllPages fetch = .ok out ∧
      out.accumulationAttempts ≤ maxAccumulationAttempts ∧
      (out.companies.length < out.totalHits →
        out.accumulationAttempts = maxAccumulationAttempts)) := by
  refine ⟨fun fuel attempt acc th tp out hrun k v h =>
    accLoop_preserves fetch fuel attempt acc th tp out hrun h, ?_, ?_⟩
  · intro fuel attempt acc th0 tp0 acc' th tp hpass hconv
    unfold accLoop
    rw [hpass]
    simp only
    rw [if_pos hconv]
  · obtain ⟨out, hout⟩ := accLoop_isOk fetch hfirst maxAccumulationAttempts 0 [] 0 0
    obtain ⟨ha, hb⟩ := accLoop_attempts fetch maxAccumulationAttempts 0 [] 0 0 out hout
    refine ⟨_, by unfold fetchAllPages; rw [hout], ?_, ?_⟩
    · show out.attempts ≤ maxAccumulationAttempts
      omega
    · intro hlt
      show out.attempts = maxAccumulationAttempts
      have hlen : (out.acc.map Prod.snd).length < out.totalHits := hlt
      rw [List.length_map] at hlen
      have := hb hlen
      omega

/-- C4 witness: an always-successful source converges within the budget. -/
theorem accumulation_monotone_capped_witness :
    (∀ a, (alwaysOkFetch a 1).isOk = true) ∧
    (∃ out, fetchAllPages alwaysOkFetch = .ok out ∧
      out.accumulationAttempts ≤ maxAccumulationAttempts ∧
      (out.companies.length < out.totalHits →
        out.accumulationAttempts = maxAccumulationAttempts)) :=
  ⟨fun _ => rfl,
    (accumulation_monotone_convergent_capped alwaysOkFetch (fun _ => rfl)).2.2⟩

/-- C5 (claim is right, code is wrong): an HTTP 429 is in fact retried by
the page-level retry policy.  p-retry aborts only on an *instance* of its
`AbortError` class, but kkr.client.ts throws a plain `new Error(...)` with
only the `.name` property reassigned to `'AbortError'`, which is no such
instance — contradicting the code's own comment ("Abort retries for rate
limiting"), the spec's taxonomy and this claim.  This theorem evaluates the
faithful embedding at the failing input: attempt 1 answers 429, attempt 2
answers 200 with a valid page, and `fetchPage` retries past the 429 and
returns the page instead of aborting with the rate-limit error. -/
theorem fetchPage_retries_429 :
    (rateLimitedThenOkResponses 1).statusCode = 429 ∧
    fetchAttempt 1 (rateLimitedThenOkResponses 1) =
      .error ⟨lit "AbortError", lit "Rate limited (429) — backing off", false⟩ ∧
    fetchPage 1 rateLimitedThenOkResponses =
      .ok { companies := [c2rawA], pagination := ⟨296, 20, 1, 1⟩ } :=
  ⟨rfl, rfl, rfl⟩

end PortfoRadar